import Mathlib

/-!
Shallow embedding of the oyinbo "daebug" core (Rust sources under src/rust/)
and verification of the specification's claims about it.

Strings are modelled as `List Char` (`Str`); Rust byte indices into UTF-8
strings are always taken at character boundaries by the code under study, so
character indices are an order-isomorphic model.  Rust `HashMap`s are modelled
as association lists whose order stands for the map's (arbitrary) iteration
order.  Wall-clock reads (`SystemTime::now`) become explicit parameters.
-/

namespace Oyinbo

abbrev Str := List Char

def strOf (s : String) : Str := s.data

/-! ### Substring search

`findSub n h` models Rust's `str::find` for a literal pattern: the least index
at which `n` occurs in `h`, if any.  `occAt n h i` says `n` occurs in `h` at
index `i`. -/

def occAt (n h : Str) (i : Nat) : Prop := (h.drop i).take n.length = n

instance (n h : Str) (i : Nat) : Decidable (occAt n h i) := by
  unfold occAt; infer_instance

def findSub (n : Str) : Str → Option Nat
  | [] => if ([] : Str).take n.length = n then some 0 else none
  | c :: t =>
    if ((c :: t) : Str).take n.length = (n : Str) then some 0
    else (findSub n t).map (· + 1)

theorem occAt_zero (n h : Str) : occAt n h 0 ↔ h.take n.length = n := by
  simp [occAt]

theorem occAt_succ (n : Str) (c : Char) (t : Str) (i : Nat) :
    occAt n (c :: t) (i + 1) ↔ occAt n t i := by
  simp [occAt, List.drop_succ_cons]

theorem findSub_some_occAt {n h : Str} {i : Nat} (hf : findSub n h = some i) :
    occAt n h i := by
  induction h generalizing i with
  | nil =>
    unfold findSub at hf
    split at hf
    · cases hf; exact (occAt_zero n []).mpr ‹_›
    · cases hf
  | cons c t ih =>
    unfold findSub at hf
    split at hf
    · cases hf; exact (occAt_zero n (c :: t)).mpr ‹_›
    · obtain ⟨j, hj, rfl⟩ := Option.map_eq_some'.mp hf
      exact (occAt_succ n c t j).mpr (ih hj)

theorem findSub_some_min {n h : Str} {i : Nat} (hf : findSub n h = some i) :
    ∀ j < i, ¬ occAt n h j := by
  induction h generalizing i with
  | nil =>
    unfold findSub at hf
    split at hf
    · cases hf; omega
    · cases hf
  | cons c t ih =>
    unfold findSub at hf
    split at hf
    · cases hf; omega
    · obtain ⟨i', hi', rfl⟩ := Option.map_eq_some'.mp hf
      intro j hj hocc
      match j with
      | 0 => exact ‹¬ _› ((occAt_zero n (c :: t)).mp hocc)
      | j' + 1 =>
        exact ih hi' j' (by omega) ((occAt_succ n c t j').mp hocc)

theorem findSub_none_not {n h : Str} (hf : findSub n h = none) :
    ∀ j, ¬ occAt n h j := by
  induction h with
  | nil =>
    unfold findSub at hf
    split at hf
    · cases hf
    · intro j hocc
      exact ‹¬ _› (by simpa [occAt, List.drop_nil] using hocc)
  | cons c t ih =>
    unfold findSub at hf
    split at hf
    · cases hf
    · intro j hocc
      match j with
      | 0 => exact ‹¬ _› ((occAt_zero n (c :: t)).mp hocc)
      | j' + 1 =>
        exact ih (by simpa using hf) j' ((occAt_succ n c t j').mp hocc)

theorem findSub_eq_some {n h : Str} {i : Nat} (hocc : occAt n h i)
    (hmin : ∀ j < i, ¬ occAt n h j) : findSub n h = some i := by
  induction h generalizing i with
  | nil =>
    have : n = [] := by
      simpa [occAt, List.drop_nil] using hocc
    subst this
    have : i = 0 := by
      by_contra hne
      exact hmin 0 (by omega) (by simp [occAt])
    subst this
    simp [findSub]
  | cons c t ih =>
    unfold findSub
    split
    · have : i = 0 := by
        by_contra hne
        exact hmin 0 (by omega) ((occAt_zero n (c :: t)).mpr ‹_›)
      subst this; rfl
    · match i with
      | 0 => exact absurd ((occAt_zero n (c :: t)).mp hocc) ‹¬ _›
      | i' + 1 =>
        have hocc' : occAt n t i' := (occAt_succ n c t i').mp hocc
        have hmin' : ∀ j < i', ¬ occAt n t j := fun j hj hocc'' =>
          hmin (j + 1) (by omega) ((occAt_succ n c t j).mpr hocc'')
        simp [ih hocc' hmin']

theorem findSub_eq_none {n h : Str} (hno : ∀ j, ¬ occAt n h j) :
    findSub n h = none := by
  cases hf : findSub n h with
  | none => rfl
  | some i => exact absurd (findSub_some_occAt hf) (hno i)

/-! Pointwise consequences of an occurrence. -/

theorem occAt_get {n h : Str} {i : Nat} (hocc : occAt n h i)
    {k : Nat} (hk : k < n.length) : h[i + k]? = n[k]? := by
  unfold occAt at hocc
  have h1 : n[k]? = ((h.drop i).take n.length)[k]? := by rw [hocc]
  rw [List.getElem?_take_of_lt hk, List.getElem?_drop] at h1
  exact h1.symm

theorem occAt_length {n h : Str} {i : Nat} (hn : n ≠ []) (hocc : occAt n h i) :
    i + n.length ≤ h.length := by
  unfold occAt at hocc
  have hlen := congrArg List.length hocc
  rw [List.length_take, List.length_drop] at hlen
  have hpos : 0 < n.length := List.length_pos.mpr hn
  omega

theorem occAt_agree {h₁ h₂ : Str} {K : Nat} (hK : h₁.take K = h₂.take K)
    {n : Str} {i : Nat} (hle : i + n.length ≤ K) :
    occAt n h₁ i ↔ occAt n h₂ i := by
  have key : ∀ h : Str, (h.drop i).take n.length = (h.take (i + n.length)).drop i := by
    intro h
    rw [List.drop_take (i + n.length) i h]
    congr 1
    omega
  have htk : ∀ h : Str, h.take (i + n.length) = (h.take K).take (i + n.length) := by
    intro h
    rw [List.take_take, min_eq_left hle]
  unfold occAt
  rw [key h₁, key h₂, htk h₁, htk h₂, hK]

theorem occAt_append_shift (a b n : Str) (i : Nat) :
    occAt n (a ++ b) (a.length + i) ↔ occAt n b i := by
  unfold occAt
  have : (a ++ b).drop (a.length + i) = b.drop i := by
    rw [← List.drop_drop, List.drop_left]
  rw [this]

theorem occAt_here (a n b : Str) : occAt n (a ++ (n ++ b)) a.length := by
  have h0 : occAt n (n ++ b) 0 := (occAt_zero n (n ++ b)).mpr (List.take_left n b)
  have h1 := (occAt_append_shift a (n ++ b) n 0).mpr h0
  simpa using h1

/-! ### Job store — `src/rust/job.rs`

`Job`, `JobState`, and `JobManager`'s operations.  The manager's
`HashMap<String, Job>` is an association list (`JobMap`); list order models
the hash map's arbitrary iteration order, and `mapInsert` mirrors
`HashMap::insert`'s overwrite-on-same-key semantics. -/

inductive JobState where
  | Requested
  | Dispatched
  | Started
  | Finished
  | Failed
  | Timeout
deriving DecidableEq, Repr, BEq

structure Job where
  id : String
  page_name : String
  agent : String
  code : String
  state : JobState
  started_at : Nat
deriving DecidableEq, Repr

abbrev JobMap := List (String × Job)

def mapInsert (m : JobMap) (k : String) (v : Job) : JobMap :=
  (k, v) :: m.filter (fun p => !(p.1 == k))

def mapGet (m : JobMap) (k : String) : Option Job :=
  (m.find? (fun p => p.1 == k)).map (·.2)

/-- `JobManager::generate_id`: `format!("job-{}", timestamp)` where
`timestamp` is the wall clock in milliseconds, passed here explicitly. -/
def generate_id (now_ms : Nat) : String := "job-" ++ toString now_ms

/-- `JobManager::create`: fresh id from the millisecond clock, state
`Requested`, `started_at` from the second clock, then `HashMap::insert`. -/
def create (m : JobMap) (now_ms now_s : Nat) (page_name agent code : String) :
    Job × JobMap :=
  let id := generate_id now_ms
  let job : Job :=
    { id := id, page_name := page_name, agent := agent, code := code
      state := JobState.Requested, started_at := now_s }
  (job, mapInsert m id job)

/-- `JobManager::get_by_page`: first job in iteration order whose page matches
and whose state is `Dispatched`. -/
def get_by_page (m : JobMap) (page_name : String) : Option Job :=
  (m.find? (fun p => p.2.page_name == page_name && p.2.state == JobState.Dispatched)).map (·.2)

/-- `JobManager::update_state`: if the id is present, set its state —
unconditionally, with no transition validation. -/
def update_state (m : JobMap) (id : String) (state : JobState) : JobMap :=
  m.map (fun p => if p.1 == id then (p.1, { p.2 with state := state }) else p)

/-- The spec's legal transition edge set (spec §4.1, `transition`), stated
for comparison with `update_state`; this definition follows the spec's words,
not the source. -/
def spec_legal_transition : JobState → JobState → Bool
  | JobState.Requested, JobState.Dispatched => true
  | JobState.Dispatched, JobState.Started => true
  | JobState.Started, JobState.Finished => true
  | JobState.Started, JobState.Failed => true
  | JobState.Dispatched, JobState.Timeout => true
  | JobState.Started, JobState.Timeout => true
  | _, _ => false

/-! ### Page registry — `src/rust/registry.rs` -/

inductive PageState where
  | Idle
  | Executing
  | Failed
deriving DecidableEq, Repr, BEq

structure Page where
  name : String
  url : String
  last_seen : Nat
  state : PageState
deriving DecidableEq, Repr

abbrev RegMap := List (String × Page)

/-- `Registry::get_or_create`: `entry().or_insert_with(..)` — an existing
entry is returned untouched; a missing one is created with state `Idle`. -/
def get_or_create (m : RegMap) (name url : String) (now_s : Nat) :
    Page × RegMap :=
  match m.find? (fun p => p.1 == name) with
  | some p => (p.2, m)
  | none =>
    let page : Page := { name := name, url := url, last_seen := now_s, state := PageState.Idle }
    (page, m ++ [(name, page)])

/-! ### Log parser — `src/rust/parser.rs`

`Mnode` models the markdown-rs mdast nodes the code matches on
(`Node::Root`, `Node::Code`; everything else falls into the wildcard arm).
`to_mdast` itself is the external markdown engine; claims about
`parse_request` are settled on the AST it produces for a concrete text. -/

inductive Mnode where
  | root (children : List Mnode)
  | code (lang : Option String) (value : String)
  | heading (depth : Nat) (text : String)
  | other
deriving Repr

structure Request where
  agent : String
  target : String
  time : String
  code : String
  has_footer : Bool
deriving DecidableEq, Repr

def lowerStr (s : String) : String := String.mk (s.data.map Char.toLower)

mutual

/-- `find_request_in_ast`: walks `Root` children in order and returns, for the
first `js`/`javascript` code block found, a `Request` with hardcoded
`agent`, `time` and `has_footer = true`. -/
def find_request_in_ast : Mnode → String → Option Request
  | Mnode.root children, page_name => find_request_in_children children page_name
  | Mnode.code lang value, page_name =>
    (match lang with
     | some l =>
       if lowerStr l = "js" ∨ lowerStr l = "javascript" then
         some { agent := "agent", target := page_name, time := "00:00:00"
                code := value, has_footer := true }
       else none
     | none => none)
  | _, _ => none

/-- The `for child in &root.children { .. return Some(req) .. }` loop. -/
def find_request_in_children : List Mnode → String → Option Request
  | [], _ => none
  | child :: rest, page_name =>
    match find_request_in_ast child page_name with
    | some req => some req
    | none => find_request_in_children rest page_name

end

/-! ### Log writer — `src/rust/writer.rs`

`write_reply` and `update_test_results`.  The filesystem read is a
`Option Str` parameter (`none` = missing/unreadable file, as
`fs::read_to_string(..).unwrap_or_default()` treats it); the wall-clock
`current_time_str` is a parameter; the returned `Str` is the content handed
to `fs::write`.  `parse_file_ast` (markdown-rs `to_mdast` with default
options) cannot fail on any input — it returns `Err` only under MDX
options — so the `?` on it never propagates an error and the result is
unused; it is therefore elided. -/

def nlS : Str := ['\n']

def markerL : Str := strOf "## Test Results"

def nsL : Str := strOf "\n## "

/-- The reply block `write_reply` formats:
`"\n#### 👍{page} to agent at {time} ({ms}ms)\n```JSON\n{result}\n```\n\n"`. -/
def reply_block (page_name time_str : String) (duration_ms : Nat) (result : String) : Str :=
  strOf ("\n#### 👍" ++ page_name ++ " to agent at " ++ time_str ++ " ("
    ++ toString duration_ms ++ "ms)\n" ++ "```" ++ "JSON\n" ++ result ++ "\n" ++ "```" ++ "\n\n")

/-- `Writer::write_reply`: read current content (empty if unreadable),
append the formatted reply at end of file, write back. -/
def write_reply (fileContent : Option Str) (page_name time_str : String)
    (duration_ms : Nat) (result : String) : Except String Str :=
  let content := fileContent.getD []
  Except.ok (content ++ reply_block page_name time_str duration_ms result)

/-- `Writer::update_test_results`: locate `"## Test Results"` by raw substring
search (`str::find`); if found, replace up to the next `"\n## "` occurrence
(or to end of file); otherwise append a new section. -/
def update_test_results (content results : Str) : Str :=
  match findSub markerL content with
  | some pos =>
    (match findSub nsL (content.drop pos) with
     | some ns =>
       content.take pos ++ markerL ++ nlS ++ results ++ nlS ++ (content.drop pos).drop ns
     | none =>
       content.take pos ++ markerL ++ nlS ++ results ++ nlS)
  | none => content ++ nlS ++ markerL ++ nlS ++ results ++ nlS

/-! ### HTTP handlers — `src/rust/server.rs`

`poll_handler` and `result_handler`, with the shared `AppState` stores as
explicit arguments and results.  `result_handler`'s filesystem write outcome
is the `writeOk` parameter. -/

structure PollResponse where
  code : Option String
  job_id : Option String
deriving DecidableEq, Repr

inductive StatusCode where
  | ok
  | internalServerError
deriving DecidableEq, Repr

/-- `poll_handler`: upsert the page, then answer with the pending job's code
and id if `get_by_page` finds one, else `{null, null}`.  The job store is not
modified (no state transition happens on poll). -/
def poll_handler (reg : RegMap) (jobs : JobMap) (name url : String) (now_s : Nat) :
    RegMap × PollResponse :=
  let upd := get_or_create reg name url now_s
  match get_by_page jobs name with
  | some job => (upd.2, { code := some job.code, job_id := some job.id })
  | none => (upd.2, { code := none, job_id := none })

structure ResultPayload where
  job_id : String
  ok : Bool
  value : Option String
  error : Option String
deriving DecidableEq, Repr

/-- `result_handler`: resolve the job; if found, write the reply (500 on write
failure) and then `update_state(job_id, Finished)` — unconditionally
`Finished`, whatever `payload.ok` says; 200 otherwise. -/
def result_handler (jobs : JobMap) (payload : ResultPayload) (writeOk : Bool) :
    StatusCode × JobMap :=
  match mapGet jobs payload.job_id with
  | some _job =>
    if writeOk then
      (StatusCode.ok, update_state jobs payload.job_id JobState.Finished)
    else
      (StatusCode.internalServerError, jobs)
  | none => (StatusCode.ok, jobs)

/-! ### Idempotence analysis of `update_test_results`

The replacement is driven by raw substring search, so a second application
reproduces the first's output exactly when the needle `"\n## "` does not
occur in `'\n' :: results` — i.e. when `results` neither starts with `"## "`
nor contains a line starting with `"## "`.  The lemmas below establish this;
the counterexample theorem for the unconditional statement is with the
claims at the end of the file. -/

theorem utr_eq_none {content : Str} (results : Str)
    (h1 : findSub markerL content = none) :
    update_test_results content results
      = content ++ nlS ++ markerL ++ nlS ++ results ++ nlS := by
  unfold update_test_results
  rw [h1]

theorem utr_eq_some_none {content : Str} (results : Str) {pos : Nat}
    (h1 : findSub markerL content = some pos)
    (h2 : findSub nsL (content.drop pos) = none) :
    update_test_results content results
      = content.take pos ++ markerL ++ nlS ++ results ++ nlS := by
  unfold update_test_results
  rw [h1]
  dsimp only
  rw [h2]

theorem utr_eq_some_some {content : Str} (results : Str) {pos ns : Nat}
    (h1 : findSub markerL content = some pos)
    (h2 : findSub nsL (content.drop pos) = some ns) :
    update_test_results content results
      = content.take pos ++ markerL ++ nlS ++ results ++ nlS ++ (content.drop pos).drop ns := by
  unfold update_test_results
  rw [h1]
  dsimp only
  rw [h2]

/-- A `markerL` occurrence cannot overlap a position holding `'\n'`,
because the marker text contains no newline. -/
theorem marker_no_nl_overlap {h : Str} {j p : Nat} (hget : h[p]? = some '\n')
    (hjp : j ≤ p) (hpj : p < j + markerL.length) : ¬ occAt markerL h j := by
  intro hocc
  have hk : p - j < markerL.length := by omega
  have hg := occAt_get hocc hk
  rw [show j + (p - j) = p from by omega] at hg
  have : ('\n' : Char) ∈ markerL := List.getElem?_mem (hg.symm.trans hget)
  exact absurd this (by decide)

/-- An `nsL` occurrence starts with `'\n'`. -/
theorem ns_occ_get0 {h : Str} {j : Nat} (hocc : occAt nsL h j) :
    h[j]? = some '\n' := by
  have hg := occAt_get hocc (show 0 < nsL.length by decide)
  rw [show nsL[0]? = some '\n' from by decide] at hg
  simpa using hg

/-- `nsL` cannot occur starting inside the `markerL` part of
`markerL ++ X`, since the marker has no newline. -/
theorem ns_occ_not_in_marker {X : Str} {j : Nat} (hj : j < markerL.length)
    (hocc : occAt nsL (markerL ++ X) j) : False := by
  have h1 : (markerL ++ X)[j]? = some '\n' := ns_occ_get0 hocc
  rw [List.getElem?_append_left hj] at h1
  exact absurd (List.getElem?_mem h1) (by decide)

/-- If `"\n## "` does not occur in `'\n' :: r`, it does not occur in
`('\n' :: r) ++ ['\n']` either. -/
theorem ns_none_tail (r : Str) (hHr : ∀ j, ¬ occAt nsL ('\n' :: r) j) :
    ∀ i, ¬ occAt nsL (('\n' :: r) ++ ['\n']) i := by
  intro i hocc
  have hS : ('\n' :: r : Str).length = r.length + 1 := by simp
  have hlen := occAt_length (show nsL ≠ [] by decide) hocc
  rw [List.length_append, hS] at hlen
  have hnsl : nsL.length = 4 := by decide
  rw [hnsl] at hlen
  by_cases hc : i + 4 ≤ r.length + 1
  · have hK : (('\n' :: r : Str) ++ ['\n']).take (r.length + 1)
        = ('\n' :: r : Str).take (r.length + 1) := by
      rw [show (r.length + 1) = ('\n' :: r : Str).length from hS.symm,
        List.take_left, List.take_length]
    have := (occAt_agree hK (by rw [hnsl]; omega)).mp hocc
    exact hHr i this
  · have hi3 : i + 3 = r.length + 1 := by simp at hlen; omega
    have hg := occAt_get hocc (show 3 < nsL.length by decide)
    have hgetS : (('\n' :: r : Str) ++ ['\n'])[r.length + 1]? = some '\n' := by
      rw [show r.length + 1 = ('\n' :: r : Str).length from hS.symm,
        List.getElem?_append_right (Nat.le_refl _)]
      simp
    rw [hi3, hgetS] at hg
    rw [show nsL[3]? = some ' ' from by decide] at hg
    exact absurd hg (by decide)

/-- If `"\n## "` does not occur in `'\n' :: r` but `A` starts with it, then
its first occurrence in `('\n' :: r) ++ '\n' :: A` is at index
`r.length + 2` (the start of `A`). -/
theorem ns_first_tail (r A : Str) (hHr : ∀ j, ¬ occAt nsL ('\n' :: r) j)
    (hA : occAt nsL A 0) :
    findSub nsL (('\n' :: r) ++ '\n' :: A) = some (r.length + 2) := by
  have hS : ('\n' :: r : Str).length = r.length + 1 := by simp
  have hsplit : (('\n' :: r) ++ '\n' :: A : Str) = (('\n' :: r) ++ ['\n']) ++ A := by
    simp
  have hplen : (('\n' :: r : Str) ++ ['\n']).length = r.length + 2 := by simp
  have hdropA : (('\n' :: r : Str) ++ '\n' :: A).drop (r.length + 2) = A := by
    rw [hsplit, ← hplen, List.drop_left]
  have hoccA : occAt nsL (('\n' :: r) ++ '\n' :: A) (r.length + 2) := by
    unfold occAt
    rw [hdropA]
    unfold occAt at hA
    simpa using hA
  have hgetS : (('\n' :: r : Str) ++ '\n' :: A)[r.length + 1]? = some '\n' := by
    rw [show r.length + 1 = ('\n' :: r : Str).length from hS.symm,
      List.getElem?_append_right (Nat.le_refl _)]
    simp
  have hgetS1 : (('\n' :: r : Str) ++ '\n' :: A)[r.length + 2]? = some '\n' := by
    have h0 : A[0]? = some '\n' := ns_occ_get0 hA
    have := List.getElem?_drop (('\n' :: r : Str) ++ '\n' :: A) (r.length + 2) 0
    rw [hdropA] at this
    simpa [h0] using this.symm
  apply findSub_eq_some hoccA
  intro j hj hocc
  have hK : (('\n' :: r : Str) ++ '\n' :: A).take (r.length + 1)
      = ('\n' :: r : Str).take (r.length + 1) := by
    rw [show r.length + 1 = ('\n' :: r : Str).length from hS.symm,
      List.take_left, List.take_length]
  by_cases hc : j + 4 ≤ r.length + 1
  · exact hHr j ((occAt_agree hK (by rw [show nsL.length = 4 from by decide]; omega)).mp hocc)
  · by_cases hje : j = r.length + 1
    · have hg := occAt_get hocc (show 1 < nsL.length by decide)
      rw [hje, show r.length + 1 + 1 = r.length + 2 from by omega, hgetS1] at hg
      rw [show nsL[1]? = some '#' from by decide] at hg
      exact absurd hg (by decide)
    · have hjlt : j < r.length + 1 := by omega
      have hkd : 1 ≤ r.length + 1 - j ∧ r.length + 1 - j ≤ 3 := by omega
      have hg := occAt_get hocc (show r.length + 1 - j < nsL.length by
        rw [show nsL.length = 4 from by decide]; omega)
      rw [show j + (r.length + 1 - j) = r.length + 1 from by omega, hgetS] at hg
      rcases (show r.length + 1 - j = 1 ∨ r.length + 1 - j = 2 ∨ r.length + 1 - j = 3 from by omega)
        with h | h | h <;> rw [h] at hg <;> exact absurd hg.symm (by decide)

/-- Applying `update_test_results` to a file already of the written shape
`T ++ markerL ++ "\n" ++ r ++ "\n" ++ A` (with the marker's first occurrence
at `T.length`, and `A` empty or starting with `"\n## "`) reproduces it
unchanged, provided `"\n## "` does not occur in `'\n' :: r`. -/
theorem utr_step (T r A : Str)
    (hHr : ∀ j, ¬ occAt nsL ('\n' :: r) j)
    (hmin : ∀ j < T.length, ¬ occAt markerL (T ++ (markerL ++ '\n' :: (r ++ '\n' :: A))) j)
    (hA : A = [] ∨ occAt nsL A 0) :
    update_test_results (T ++ (markerL ++ '\n' :: (r ++ '\n' :: A))) r
      = T ++ (markerL ++ '\n' :: (r ++ '\n' :: A)) := by
  set out := T ++ (markerL ++ '\n' :: (r ++ '\n' :: A)) with hout
  have hoccT : occAt markerL out T.length := occAt_here T markerL _
  have hfindM : findSub markerL out = some T.length := findSub_eq_some hoccT hmin
  have hdrop : out.drop T.length = markerL ++ '\n' :: (r ++ '\n' :: A) :=
    List.drop_left T _
  have htake : out.take T.length = T := List.take_left T _
  have hsh : ('\n' :: (r ++ '\n' :: A) : Str) = ('\n' :: r) ++ '\n' :: A := by simp
  rcases hA with rfl | hA0
  · have hfindNS : findSub nsL (out.drop T.length) = none := by
      rw [hdrop]
      apply findSub_eq_none
      intro j hocc
      by_cases hjm : j < markerL.length
      · exact ns_occ_not_in_marker hjm hocc
      · rw [show j = markerL.length + (j - markerL.length) from by omega] at hocc
        have hocc' := (occAt_append_shift markerL _ nsL _).mp hocc
        rw [hsh] at hocc'
        have hocc'' : occAt nsL (('\n' :: r) ++ ['\n']) (j - markerL.length) := by
          have he : (('\n' :: r) ++ '\n' :: ([] : Str)) = ('\n' :: r) ++ ['\n'] := by simp
          rw [← he]
          exact hocc'
        exact ns_none_tail r hHr _ hocc''
    rw [utr_eq_some_none r hfindM hfindNS, htake]
    simp [nlS, hout]
  · have hfindNS : findSub nsL (out.drop T.length)
        = some (markerL.length + (r.length + 2)) := by
      rw [hdrop]
      apply findSub_eq_some
      · rw [hsh]
        exact (occAt_append_shift markerL _ nsL _).mpr
          (findSub_some_occAt (ns_first_tail r A hHr hA0))
      · intro j hj hocc
        by_cases hjm : j < markerL.length
        · exact ns_occ_not_in_marker hjm hocc
        · rw [show j = markerL.length + (j - markerL.length) from by omega] at hocc
          have hocc' := (occAt_append_shift markerL _ nsL _).mp hocc
          rw [hsh] at hocc'
          exact findSub_some_min (ns_first_tail r A hHr hA0)
            (j - markerL.length) (by omega) hocc'
    have hafter : (out.drop T.length).drop (markerL.length + (r.length + 2)) = A := by
      rw [hdrop]
      have he : (markerL ++ '\n' :: (r ++ '\n' :: A) : Str)
          = (markerL ++ '\n' :: r ++ ['\n']) ++ A := by simp
      have hlen : (markerL ++ '\n' :: r ++ ['\n'] : Str).length
          = markerL.length + (r.length + 2) := by simp
      rw [he, ← hlen, List.drop_left]
    rw [utr_eq_some_some r hfindM hfindNS, htake, hafter]
    simp [nlS, hout]

/-- The output of `update_test_results` always has the shape
`T ++ markerL ++ "\n" ++ r ++ "\n" ++ A`, with no marker occurrence before
`T.length` and `A` either empty or starting with `"\n## "`. -/
theorem utr_shape (c r : Str) :
    ∃ T A, update_test_results c r = T ++ (markerL ++ '\n' :: (r ++ '\n' :: A))
      ∧ (∀ j < T.length, ¬ occAt markerL (T ++ (markerL ++ '\n' :: (r ++ '\n' :: A))) j)
      ∧ (A = [] ∨ occAt nsL A 0) := by
  cases hfc : findSub markerL c with
  | none =>
    refine ⟨c ++ ['\n'], [], ?_, ?_, Or.inl rfl⟩
    · rw [utr_eq_none r hfc]
      simp [nlS]
    · intro j hj hocc
      have hnone := findSub_none_not hfc
      have hjc : j < c.length + 1 := by simpa using hj
      by_cases hcase : j + markerL.length ≤ c.length
      · have hK : ((c ++ ['\n']) ++ (markerL ++ '\n' :: (r ++ '\n' :: ([] : Str)))).take c.length
            = c.take c.length := by
          have h1 : ((c ++ ['\n']) ++ (markerL ++ '\n' :: (r ++ '\n' :: ([] : Str))))
              = c ++ (['\n'] ++ (markerL ++ '\n' :: (r ++ '\n' :: ([] : Str)))) := by simp
          rw [h1, List.take_left, List.take_length]
        exact hnone j ((occAt_agree hK hcase).mp hocc)
      · have hget : ((c ++ ['\n']) ++ (markerL ++ '\n' :: (r ++ '\n' :: ([] : Str))))[c.length]?
            = some '\n' := by
          have h1 : ((c ++ ['\n']) ++ (markerL ++ '\n' :: (r ++ '\n' :: ([] : Str))))
              = c ++ '\n' :: (markerL ++ '\n' :: (r ++ '\n' :: ([] : Str))) := by simp
          rw [h1, List.getElem?_append_right (Nat.le_refl _)]
          simp
        exact marker_no_nl_overlap hget (by omega) (by omega) hocc
  | some p =>
    have hoccp := findSub_some_occAt hfc
    have hminp := findSub_some_min hfc
    have hple : p + markerL.length ≤ c.length :=
      occAt_length (show markerL ≠ [] by decide) hoccp
    have hTlen : (c.take p).length = p := by
      rw [List.length_take]
      omega
    have hminshared : ∀ (tail : Str), ∀ j < p,
        ¬ occAt markerL ((c.take p) ++ (markerL ++ tail)) j := by
      intro tail j hj hocc
      have h1 : (c.take p) ++ (markerL ++ tail) = ((c.take p) ++ markerL) ++ tail := by
        simp
      have h2 : ((c.take p) ++ markerL).length = p + markerL.length := by
        simp [hTlen]
      have hK : ((c.take p) ++ (markerL ++ tail)).take (p + markerL.length)
          = c.take (p + markerL.length) := by
        rw [h1, ← h2, List.take_left, h2, List.take_add]
        congr 1
        exact hoccp.symm
      have := (occAt_agree hK (show j + markerL.length ≤ p + markerL.length by omega)).mp hocc
      exact hminp j hj this
    cases hfn : findSub nsL (c.drop p) with
    | none =>
      refine ⟨c.take p, [], ?_, ?_, Or.inl rfl⟩
      · rw [utr_eq_some_none r hfc hfn]
        simp [nlS]
      · intro j hj
        rw [hTlen] at hj
        exact hminshared _ j hj
    | some n =>
      refine ⟨c.take p, (c.drop p).drop n, ?_, ?_, Or.inr ?_⟩
      · rw [utr_eq_some_some r hfc hfn]
        simp [nlS]
      · intro j hj
        rw [hTlen] at hj
        exact hminshared _ j hj
      · have hoccn := findSub_some_occAt hfn
        unfold occAt at hoccn ⊢
        simpa using hoccn

/-! ## The claims -/

def c1_first : Job × JobMap := create [] 1700000000000 1700000000 "pageA" "agent" "codeA"

def c1_second : Job × JobMap :=
  create c1_first.2 1700000000000 1700000000 "pageB" "agent" "codeB"

/-- Claim C1: job ids are NOT unique under rapid creation — two
`JobManager::create` calls in the same millisecond (here both at wall clock
1700000000000 ms) produce the same id `"job-1700000000000"`, and the second
insertion overwrites the first's record: looking the shared id up afterwards
yields the second job, which differs from the first. -/
theorem c1_same_millisecond_id_collision :
    c1_first.1.id = c1_second.1.id
    ∧ mapGet c1_second.2 c1_first.1.id = some c1_second.1
    ∧ c1_second.1 ≠ c1_first.1 := by
  decide

def c2_jobs : JobMap :=
  [("job-7", { id := "job-7", page_name := "p", agent := "agent", code := "1+1"
               state := JobState.Finished, started_at := 100 })]

/-- Claim C2: `JobManager::update_state` performs no transition validation.
`Finished → Dispatched` is not in the spec's legal edge set, yet the call
changes the stored state to `Dispatched` (and reports nothing), instead of
leaving the job `Finished` and reporting an invalid transition. -/
theorem c2_update_state_no_validation :
    spec_legal_transition JobState.Finished JobState.Dispatched = false
    ∧ mapGet (update_state c2_jobs "job-7" JobState.Dispatched) "job-7"
      = some { id := "job-7", page_name := "p", agent := "agent", code := "1+1"
               state := JobState.Dispatched, started_at := 100 } := by
  decide

def c3_content : Str :=
  strOf ("### agent to page at 10:00:00\n" ++ "```" ++ "js\n1+1\n" ++ "```" ++ "\n"
    ++ "### agent to page at 10:00:05\n" ++ "```" ++ "js\n2+2\n" ++ "```" ++ "\n")

/-- Claim C3: `Writer::write_reply` is a blind end-of-file append.  On a log
whose answered request (10:00:00) is followed by a further request block
(10:00:05), the written content is exactly the old content with the reply
block concatenated at the end — after the later request, not anchored after
its own request's code fence. -/
theorem c3_write_reply_appends_at_eof :
    write_reply (some c3_content) "page" "10:00:06" 5 "2"
      = Except.ok (c3_content ++ reply_block "page" "10:00:06" 5 "2") := by
  rfl

def c4_ast : Mnode :=
  Mnode.root
    [Mnode.heading 3 "agent to page at 10:00:00",
     Mnode.code (some "js") "1+1",
     Mnode.heading 4 "page to agent at 10:00:01 (5ms)",
     Mnode.code (some "JSON") "2"]

/-- Claim C4: on the AST of a log whose single request (the `js` block) is
already answered by a reply block (heading + `JSON` fence), `parse_request`'s
AST walk still returns that request — with fabricated `agent`, `time` and
`has_footer = true` — instead of returning none as the claim requires. -/
theorem c4_parse_request_ignores_footer :
    find_request_in_ast c4_ast "page"
      = some { agent := "agent", target := "page", time := "00:00:00"
               code := "1+1", has_footer := true } := by
  rfl

def c5_jobs : JobMap :=
  [("job-9", { id := "job-9", page_name := "p", agent := "agent", code := "1+1"
               state := JobState.Requested, started_at := 7 })]

/-- Claim C5: a poll by page `p` while a job for `p` sits in state
`Requested` answers `{code: null, job_id: null}` — `get_by_page` only
matches `Dispatched` jobs, and `poll_handler` performs no
`Requested → Dispatched` transition (it never touches the job store at
all), so the pending job is never handed over. -/
theorem c5_requested_job_not_dispatched :
    get_by_page c5_jobs "p" = none
    ∧ (poll_handler [] c5_jobs "p" "http://x" 10).2
      = { code := none, job_id := none } := by
  decide

def c6_jobs : JobMap :=
  [("job-3", { id := "job-3", page_name := "p", agent := "agent", code := "x"
               state := JobState.Started, started_at := 7 })]

def c6_payload : ResultPayload :=
  { job_id := "job-3", ok := false, value := none, error := some "boom" }

/-- Claim C6: posting a result with `ok = false` for an existing job
transitions it to `Finished`, not `Failed` — `result_handler` always passes
`JobState::Finished` to `update_state`, ignoring the `ok` flag. -/
theorem c6_failed_result_marked_finished :
    (result_handler c6_jobs c6_payload true).1 = StatusCode.ok
    ∧ mapGet (result_handler c6_jobs c6_payload true).2 "job-3"
      = some { id := "job-3", page_name := "p", agent := "agent", code := "x"
               state := JobState.Finished, started_at := 7 } := by
  decide

/-- Claim C7 counterexample: `update_test_results` is not idempotent for
every results content.  With an empty file and results `"x\n## y"`, the
second application treats the `"## y"` line written by the first as the next
section heading and duplicates it, so the bytes differ. -/
theorem c7_idempotence_counterexample :
    update_test_results (update_test_results [] (strOf "x\n## y")) (strOf "x\n## y")
      ≠ update_test_results [] (strOf "x\n## y") := by
  decide

/-- Claim C7 (amended): `update_test_results` is idempotent for every page
file content provided the results content contains no occurrence of
`"\n## "` when prefixed by a newline — i.e. `results` neither starts with
`"## "` nor contains a line starting with `"## "`.  Under that proviso,
applying it twice produces byte-identical output both times. -/
theorem c7_update_test_results_idempotent (c r : Str)
    (h : findSub nsL ('\n' :: r) = none) :
    update_test_results (update_test_results c r) r = update_test_results c r := by
  obtain ⟨T, A, hout, hmin, hA⟩ := utr_shape c r
  rw [hout]
  exact utr_step T r A (findSub_none_not h) hmin hA

/-- Witness for the amended C7 theorem at a concrete file and results
content. -/
theorem c7_idempotent_witness :
    findSub nsL ('\n' :: strOf "ok: 3 passed") = none
    ∧ update_test_results
        (update_test_results (strOf "# Log\nbody\n") (strOf "ok: 3 passed"))
        (strOf "ok: 3 passed")
      = update_test_results (strOf "# Log\nbody\n") (strOf "ok: 3 passed") :=
  ⟨by decide, c7_update_test_results_idempotent _ _ (by decide)⟩

def c8_content : Str :=
  strOf ("```" ++ "\n## Test Results\n" ++ "```" ++ "\n# Real\nbody\n")

/-- Claim C8: the results section is located by raw substring search, not by
parsed heading nodes.  On a file whose only `"## Test Results"` text sits
inside a fenced code block, `update_test_results` anchors the replacement at
that in-fence occurrence — wiping the rest of the file — rather than
appending a new section at the end as the claim requires. -/
theorem c8_marker_in_code_fence_anchored :
    update_test_results c8_content (strOf "RESULTS")
      = strOf ("```" ++ "\n## Test Results\nRESULTS\n")
    ∧ update_test_results c8_content (strOf "RESULTS")
      ≠ c8_content ++ nlS ++ markerL ++ nlS ++ strOf "RESULTS" ++ nlS := by
  decide

def c9_jobs : JobMap :=
  [("job-2", { id := "job-2", page_name := "p", agent := "agent", code := "a"
               state := JobState.Dispatched, started_at := 5 }),
   ("job-1", { id := "job-1", page_name := "p", agent := "agent", code := "b"
               state := JobState.Dispatched, started_at := 3 })]

/-- Claim C9: with two `Dispatched` jobs for the same page, `get_by_page`
returns the first in the hash map's (arbitrary) iteration order — here the
job with `started_at = 5` — even though a job with the strictly earlier
`started_at = 3` is in the store, contradicting the earliest-`started_at`
deterministic tie-break. -/
theorem c9_get_by_page_not_earliest :
    get_by_page c9_jobs "p"
      = some { id := "job-2", page_name := "p", agent := "agent", code := "a"
               state := JobState.Dispatched, started_at := 5 }
    ∧ ∃ q ∈ c9_jobs, q.2.page_name = "p" ∧ q.2.state = JobState.Dispatched
        ∧ q.2.started_at < 5 := by
  decide

/-- Claim C10: when the page's log file is missing or unreadable,
`write_reply` treats the content as empty (`unwrap_or_default`), succeeds,
and the written file is exactly the formatted reply block. -/
theorem c10_missing_file_writes_reply_only (page_name time_str : String)
    (duration_ms : Nat) (result : String) :
    write_reply none page_name time_str duration_ms result
      = Except.ok (reply_block page_name time_str duration_ms result) := by
  simp [write_reply]

end Oyinbo
